import Mathlib

/-!
Shallow embedding of the NestMTX/Config environment loader (`src/env.ts` and
`src/errors.ts`).

JavaScript values flowing through the loader are modelled by the inductive
type `JsValue`; JavaScript numbers (IEEE float64) are modelled as rationals,
with `NaN` results of the host parsers modelled as `Option.none`.  The
external library functions the loader calls (`Number`, `Number.toString`,
`JSON.parse`, `Date.parse`, `util.inspect`) are fields of a `Host` structure,
so every theorem is proved for an arbitrary host; witnesses instantiate a
small concrete host.  A Joi schema is modelled by `JoiSchema`: the runtime
`type` tag read by the dispatcher, the `presence` flag read via
`$_getFlag('presence')`, and the `validate` function returning the
`(error, value)` pair Joi returns.  Thrown exceptions are modelled with
`Except`: the `Env` constructor either returns the fully built cache or the
first error raised, matching the all-or-nothing construction of `env.ts`.
-/

/-- A JavaScript value as handled by the loader: strings, numbers
(modelled as rationals), booleans, arrays, plain objects (ordered field
lists), `null` and `undefined`. -/
inductive JsValue where
  | str : String → JsValue
  | num : ℚ → JsValue
  | bool : Bool → JsValue
  | arr : List JsValue → JsValue
  | obj : List (String × JsValue) → JsValue
  | null : JsValue
  | undefined : JsValue
deriving Repr

/-- One entry of `Joi.ValidationError.details`: a message and the path of
the violation inside the validated value.  Joi paths mix strings and
numbers; both are modelled as strings, array indices appearing in decimal
form, exactly as `path.join('.')` renders them in `errors.ts`. -/
structure JoiDetail where
  message : String
  path : List String
deriving Repr, DecidableEq

/-- The part of `Joi.ValidationError` used by `EnvSchemaValidationError.fromJoi`. -/
structure JoiError where
  details : List JoiDetail
deriving Repr, DecidableEq

/-- The part of a `Joi.Schema` observed by `env.ts`: the runtime `type` tag
(`schema[key].type`, `none` when undefined), the presence flag returned by
`$_getFlag('presence')`, and `validate`, returning Joi's
`(error, value)` pair with `error` modelled as `Option JoiError`. -/
structure JoiSchema where
  type : Option String
  presence : Option String
  validate : JsValue → Option JoiError × JsValue

/-- The host-language library functions called by the loader.  `parseNumber`
models `Number(s)` with `none` for `NaN`; `numToString` models
`Number.prototype.toString`; `jsonParse` models `JSON.parse` with `none`
when it throws; `parseDate` models `Date.parse` with `none` for `NaN`;
`inspect` models `util.inspect(value, depth 2)` from `errors.ts`. -/
structure Host where
  parseNumber : String → Option ℚ
  numToString : ℚ → String
  jsonParse : String → Option JsValue
  parseDate : String → Option ℚ
  inspect : JsValue → String

/-- The closed error taxonomy of `src/errors.ts`, each constructor carrying
the offending variable name exactly as the corresponding Error subclass
does.  `schemaType` is `EnvSchemaTypeError` (also keeping the unsupported
tag), `missing` is `EnvMissingError`, `validationFailed` is
`EnvSchemaValidationError` (keeping its `messages` array), `unparseableJSON`
is `EnvUnparseableFromJSONError`, and so on. -/
inductive EnvError where
  | schemaType (key : String) (tag : Option String)
  | missing (key : String)
  | validationFailed (key : String) (messages : List String)
  | unparseableJSON (key : String)
  | unparseableNumber (key : String)
  | unparseableDate (key : String)
  | unparseableBoolean (key : String)
deriving Repr, DecidableEq

/-- Accumulator pass behind `jsSplit`: characters are collected until the
separator is met, each collected run (reversed back) becoming one item. -/
def jsSplitAux (sep : Char) : List Char → List Char → List String
  | [], acc => [String.mk acc.reverse]
  | c :: cs, acc =>
    if c = sep then String.mk acc.reverse :: jsSplitAux sep cs []
    else jsSplitAux sep cs (c :: acc)

/-- Model of JavaScript `String.prototype.split` with a one-character
separator, as used by `value.split(',')` in `#castToArray`: splitting the
empty string yields `[""]`, and separators at the ends yield empty items,
exactly as in JavaScript. -/
def jsSplit (s : String) (sep : Char) : List String :=
  jsSplitAux sep s.data []

/-- Model of JavaScript `String.prototype.toLowerCase` as used by
`#castToBoolean` (character-wise ASCII lowering; the recognized boolean
tokens are all ASCII). -/
def jsToLower (s : String) : String := String.mk (s.data.map Char.toLower)

/-- Model of JavaScript `String.prototype.startsWith`. -/
def jsStartsWith (s pre : String) : Bool := List.isPrefixOf pre.data s.data

/-- Model of JavaScript `String.prototype.endsWith`. -/
def jsEndsWith (s suf : String) : Bool := List.isSuffixOf suf.data s.data

/-- Membership test of JavaScript `Map.prototype.has` on an ordered
key-value list. -/
def hasKey {α : Type} (m : List (String × α)) (k : String) : Bool :=
  m.any (fun p => p.1 = k)

/-- Association-list lookup modelling JavaScript property access
`schema[key]` / `Map.get(key)` on maps whose keys are distinct. -/
def alistLookup {α : Type} (m : List (String × α)) (k : String) : Option α :=
  (m.find? (fun p => p.1 = k)).map Prod.snd

/-- Digit accumulator behind `jsToNat`. -/
def jsToNatAux : List Char → Nat → Option Nat
  | [], acc => some acc
  | c :: cs, acc =>
    if c.isDigit then jsToNatAux cs (acc * 10 + (c.toNat - 48))
    else none

/-- Decimal reading of a path component used for array indexing (the form
in which Joi's numeric path entries reappear after `path.join('.')`). -/
def jsToNat (s : String) : Option Nat :=
  match s.data with
  | [] => none
  | cs => jsToNatAux cs 0

/-- Traversal of `dot-object`'s `dot.pick` as used by
`EnvSchemaValidationError.fromJoi`: follow the dotted path (already split
into components) through object fields and array indices, yielding
`undefined` when a step fails. -/
def dotPick : List String → JsValue → JsValue
  | [], v => v
  | p :: ps, JsValue.obj fields =>
    match alistLookup fields p with
    | some v => dotPick ps v
    | none => JsValue.undefined
  | p :: ps, JsValue.arr xs =>
    match jsToNat p with
    | some i =>
      match xs.get? i with
      | some v => dotPick ps v
      | none => JsValue.undefined
    | none => JsValue.undefined
  | _, _ => JsValue.undefined

/-- The messages built by `EnvSchemaValidationError.fromJoi`: one per
`details` entry, the detail's message followed by the inspected value
picked from `source` at the detail's dotted path. -/
def fromJoiMessages (host : Host) (e : JoiError) (source : JsValue) : List String :=
  e.details.map (fun d =>
    d.message ++ ", but got \"" ++ host.inspect (dotPick d.path source) ++ "\"")

/-- The validation tail shared by every caster in `env.ts`: run
`validator.validate(casted)`; a `Joi.ValidationError` is wrapped by
`EnvSchemaValidationError.fromJoi(key, error, casted)`, otherwise the
validated value is returned. -/
def applyValidator (host : Host) (key : String) (casted : JsValue)
    (validator : JoiSchema) : Except EnvError JsValue :=
  match validator.validate casted with
  | (some e, _) => Except.error (EnvError.validationFailed key (fromJoiMessages host e casted))
  | (none, validated) => Except.ok validated

/-- Model of `Env.#castToArray`: a raw value that starts with `[` and ends
with `]` is parsed as JSON (failure raising `EnvUnparseableFromJSONError`),
any other raw value is split on commas into strings; the result is then
validated. -/
def castToArray (host : Host) (key : String) (value : Option String)
    (validator : JoiSchema) : Except EnvError JsValue :=
  match value with
  | none =>
    if validator.presence = some "optional" then Except.ok JsValue.undefined
    else Except.error (EnvError.missing key)
  | some v =>
    if jsStartsWith v "[" && jsEndsWith v "]" then
      match host.jsonParse v with
      | some casted => applyValidator host key casted validator
      | none => Except.error (EnvError.unparseableJSON key)
    else
      applyValidator host key (JsValue.arr ((jsSplit v ',').map JsValue.str)) validator

/-- Model of `Env.#castToBoolean`: lowercase the raw value and match it
against the truthy tokens `true`, `yes`, `on`, `1` and the falsy tokens
`false`, `no`, `off`, `0`; anything else raises
`EnvUnparseableBooleanError`; the result is then validated. -/
def castToBoolean (host : Host) (key : String) (value : Option String)
    (validator : JoiSchema) : Except EnvError JsValue :=
  match value with
  | none =>
    if validator.presence = some "optional" then Except.ok JsValue.undefined
    else Except.error (EnvError.missing key)
  | some v =>
    let lower := jsToLower v
    if lower = "true" ∨ lower = "yes" ∨ lower = "on" ∨ lower = "1" then
      applyValidator host key (JsValue.bool true) validator
    else if lower = "false" ∨ lower = "no" ∨ lower = "off" ∨ lower = "0" then
      applyValidator host key (JsValue.bool false) validator
    else
      Except.error (EnvError.unparseableBoolean key)

/-- Model of `Env.#castToDate`: `Date.parse` the raw value, a `NaN` result
raising `EnvUnparseableDateError`; the millisecond timestamp is then
validated. -/
def castToDate (host : Host) (key : String) (value : Option String)
    (validator : JoiSchema) : Except EnvError JsValue :=
  match value with
  | none =>
    if validator.presence = some "optional" then Except.ok JsValue.undefined
    else Except.error (EnvError.missing key)
  | some v =>
    match host.parseDate v with
    | none => Except.error (EnvError.unparseableDate key)
    | some t => applyValidator host key (JsValue.num t) validator

/-- Model of `Env.#castToNumber`: `Number(value)`, a `NaN` result raising
`EnvUnparseableNumberError`; then the round-trip check
`casted.toString() !== value.toString()` (the raw value is already a
string, so `value.toString()` is the raw value), a mismatch raising
`EnvUnparseableNumberError`; the number is then validated. -/
def castToNumber (host : Host) (key : String) (value : Option String)
    (validator : JoiSchema) : Except EnvError JsValue :=
  match value with
  | none =>
    if validator.presence = some "optional" then Except.ok JsValue.undefined
    else Except.error (EnvError.missing key)
  | some v =>
    match host.parseNumber v with
    | none => Except.error (EnvError.unparseableNumber key)
    | some n =>
      if host.numToString n ≠ v then Except.error (EnvError.unparseableNumber key)
      else applyValidator host key (JsValue.num n) validator

/-- Model of `Env.#castToObject`: `JSON.parse` the raw value, a parse
failure raising `EnvUnparseableFromJSONError`; the parsed value is then
validated. -/
def castToObject (host : Host) (key : String) (value : Option String)
    (validator : JoiSchema) : Except EnvError JsValue :=
  match value with
  | none =>
    if validator.presence = some "optional" then Except.ok JsValue.undefined
    else Except.error (EnvError.missing key)
  | some v =>
    match host.jsonParse v with
    | none => Except.error (EnvError.unparseableJSON key)
    | some casted => applyValidator host key casted validator

/-- Model of `Env.#castToString`: `value.toString()` is the raw string
itself; it is then validated. -/
def castToString (host : Host) (key : String) (value : Option String)
    (validator : JoiSchema) : Except EnvError JsValue :=
  match value with
  | none =>
    if validator.presence = some "optional" then Except.ok JsValue.undefined
    else Except.error (EnvError.missing key)
  | some v => applyValidator host key (JsValue.str v) validator

/-- The validator used by the constructor for environment keys without a
schema entry, `Joi.string().optional().allow('')`: type `string`, presence
`optional`, and validation that accepts every value it is fed unchanged
(the caster only ever feeds it the raw string, which this Joi rule always
accepts). -/
def defaultStringRule : JoiSchema where
  type := some "string"
  presence := some "optional"
  validate := fun v => (none, v)

/-- The kind dispatch of the `Env` constructor for one environment entry
`(key, v)`: when the schema declares the key, switch on the rule's `type`
tag (with `object` and `any` sharing the JSON caster) and raise
`EnvSchemaTypeError` on any other tag including an undefined one;
otherwise cast the value as an optional string. -/
def dispatchKey (host : Host) (schema : List (String × JoiSchema))
    (key : String) (v : String) : Except EnvError JsValue :=
  match alistLookup schema key with
  | some rule =>
    match rule.type with
    | some t =>
      if t = "array" then castToArray host key (some v) rule
      else if t = "boolean" then castToBoolean host key (some v) rule
      else if t = "date" then castToDate host key (some v) rule
      else if t = "number" then castToNumber host key (some v) rule
      else if t = "object" ∨ t = "any" then castToObject host key (some v) rule
      else if t = "string" then castToString host key (some v) rule
      else Except.error (EnvError.schemaType key (some t))
    | none => Except.error (EnvError.schemaType key none)
  | none => castToString host key (some v) defaultStringRule

/-- The first constructor pass: iterate the environment entries in order,
dispatch each, and populate the cache in the same order; the first raised
error aborts the whole pass. -/
def processEnv (host : Host) (schema : List (String × JoiSchema)) :
    List (String × String) → Except EnvError (List (String × JsValue))
  | [] => Except.ok []
  | (key, v) :: rest => do
    let val ← dispatchKey host schema key v
    let cache ← processEnv host schema rest
    return (key, val) :: cache

/-- The second constructor pass (presence enforcer): walk the schema keys
in order and return the first key that is absent from the cache and whose
presence flag is exactly `'required'`. -/
def checkPresence (cache : List (String × JsValue)) :
    List (String × JoiSchema) → Option String
  | [] => none
  | (key, rule) :: rest =>
    if hasKey cache key then checkPresence cache rest
    else if rule.presence = some "required" then some key
    else checkPresence cache rest

/-- The `Env` constructor: build the cache from the environment, then
enforce presence of required schema keys; any raised error aborts
construction with no cache exposed. -/
def buildEnv (host : Host) (schema : List (String × JoiSchema))
    (env : List (String × String)) : Except EnvError (List (String × JsValue)) := do
  let cache ← processEnv host schema env
  match checkPresence cache schema with
  | some key => Except.error (EnvError.missing key)
  | none => Except.ok cache

/-- Model of `Env.get(key, fallback = undefined)`: the cached value when
the key is present, otherwise the fallback. -/
def envGet (cache : List (String × JsValue)) (key : String)
    (fallback : JsValue := JsValue.undefined) : JsValue :=
  match alistLookup cache key with
  | some v => v
  | none => fallback

/-- One step of the object assembly in `Env.all(true)`: the assignment
`result[key] = value` overwrites an existing property in place and appends
a fresh one at the end. -/
def objSet (m : List (String × JsValue)) (k : String) (v : JsValue) :
    List (String × JsValue) :=
  if hasKey m k then
    m.map (fun kv => if kv.1 = k then (k, v) else kv)
  else m ++ [(k, v)]

/-- Model of `Env.all(true)`: fold the cache entries in order into a fresh
plain object (then frozen). -/
def allObj (cache : List (String × JsValue)) : List (String × JsValue) :=
  cache.foldl (fun m kv => objSet m kv.1 kv.2) []

/-- Model of `Env.all(false)`: copy the cache entries in order into a fresh
`Map` (then frozen). -/
def allMap (cache : List (String × JsValue)) : List (String × JsValue) :=
  cache.map id

/-- A Joi rule with the given type tag and presence flag whose validation
accepts every value unchanged (a plain `Joi.x()` rule with no additional
constraints), used to instantiate theorems at concrete schemas. -/
def mkRule (t : Option String) (p : Option String) : JoiSchema where
  type := t
  presence := p
  validate := fun v => (none, v)

/-- A small concrete host used to instantiate theorems: `Number` recognizes
`8080` and reads `1e3` as `1000` (whose canonical string form differs from
the raw input), `JSON.parse` recognizes `[1,2,3]`, and `inspect` renders
strings verbatim. -/
def hostW : Host where
  parseNumber := fun s =>
    if s = "8080" then some 8080 else if s = "1e3" then some 1000 else none
  numToString := fun n =>
    if n = 8080 then "8080" else if n = 1000 then "1000" else ""
  jsonParse := fun s =>
    if s = "[1,2,3]" then some (JsValue.arr [JsValue.num 1, JsValue.num 2, JsValue.num 3])
    else none
  parseDate := fun _ => none
  inspect := fun v => match v with | JsValue.str t => t | _ => ""

theorem Except_bind_ok {ε α β : Type} (a : α) (f : α → Except ε β) :
    Except.bind (Except.ok a) f = f a := rfl

theorem Except_bind_error {ε α β : Type} (e : ε) (f : α → Except ε β) :
    Except.bind (Except.error e : Except ε α) f = Except.error e := rfl

theorem hasKey_true_iff {α : Type} (m : List (String × α)) (k : String) :
    hasKey m k = true ↔ k ∈ m.map Prod.fst := by
  simp [hasKey, List.any_eq_true, List.mem_map]

theorem hasKey_false_iff {α : Type} (m : List (String × α)) (k : String) :
    hasKey m k = false ↔ k ∉ m.map Prod.fst := by
  rw [Bool.eq_false_iff, Ne, hasKey_true_iff]

theorem alistLookup_eq_none_iff {α : Type} (m : List (String × α)) (k : String) :
    alistLookup m k = none ↔ k ∉ m.map Prod.fst := by
  simp [alistLookup, List.find?_eq_none, List.mem_map]
  constructor
  · intro h x hm
    exact h k x hm rfl
  · intro h a b hm he
    subst he
    exact h b hm

theorem processEnv_cons (host : Host) (schema : List (String × JoiSchema))
    (k v : String) (rest : List (String × String)) :
    processEnv host schema ((k, v) :: rest) =
      Except.bind (dispatchKey host schema k v) (fun val =>
        Except.bind (processEnv host schema rest) (fun cache =>
          Except.ok ((k, val) :: cache))) := rfl

theorem processEnv_cons_ok {host : Host} {schema : List (String × JoiSchema)}
    {k v : String} {rest : List (String × String)} {cache : List (String × JsValue)}
    (h : processEnv host schema ((k, v) :: rest) = Except.ok cache) :
    ∃ val c, dispatchKey host schema k v = Except.ok val ∧
      processEnv host schema rest = Except.ok c ∧ cache = (k, val) :: c := by
  rw [processEnv_cons] at h
  cases hd : dispatchKey host schema k v with
  | error e => rw [hd, Except_bind_error] at h; simp at h
  | ok val =>
    rw [hd, Except_bind_ok] at h
    cases hp : processEnv host schema rest with
    | error e => rw [hp, Except_bind_error] at h; simp at h
    | ok c =>
      rw [hp, Except_bind_ok] at h
      injection h with h2
      exact ⟨val, c, rfl, rfl, h2.symm⟩

theorem processEnv_keys {host : Host} {schema : List (String × JoiSchema)} :
    ∀ {env : List (String × String)} {cache : List (String × JsValue)},
      processEnv host schema env = Except.ok cache →
      cache.map Prod.fst = env.map Prod.fst := by
  intro env
  induction env with
  | nil =>
    intro cache h
    simp only [processEnv] at h
    injection h with h2
    simp [← h2]
  | cons p rest ih =>
    obtain ⟨k, v⟩ := p
    intro cache h
    obtain ⟨val, c, _, hp, hc⟩ := processEnv_cons_ok h
    subst hc
    simp [ih hp]

theorem processEnv_mem {host : Host} {schema : List (String × JoiSchema)} :
    ∀ {env : List (String × String)} {cache : List (String × JsValue)}
      {k v : String},
      processEnv host schema env = Except.ok cache → (k, v) ∈ env →
      ∃ val, dispatchKey host schema k v = Except.ok val ∧ (k, val) ∈ cache := by
  intro env
  induction env with
  | nil => intro cache k v _ hm; simp at hm
  | cons p rest ih =>
    obtain ⟨k0, v0⟩ := p
    intro cache k v h hm
    obtain ⟨val, c, hd, hp, hc⟩ := processEnv_cons_ok h
    subst hc
    rcases List.mem_cons.mp hm with heq | htail
    · cases heq
      exact ⟨val, hd, List.mem_cons_self _ _⟩
    · obtain ⟨val2, hd2, hm2⟩ := ih hp htail
      exact ⟨val2, hd2, List.mem_cons_of_mem _ hm2⟩

theorem buildEnv_eq (host : Host) (schema : List (String × JoiSchema))
    (env : List (String × String)) :
    buildEnv host schema env =
      Except.bind (processEnv host schema env) (fun cache =>
        match checkPresence cache schema with
        | some key => Except.error (EnvError.missing key)
        | none => Except.ok cache) := rfl

theorem buildEnv_ok {host : Host} {schema : List (String × JoiSchema)}
    {env : List (String × String)} {cache : List (String × JsValue)}
    (h : buildEnv host schema env = Except.ok cache) :
    processEnv host schema env = Except.ok cache ∧
      checkPresence cache schema = none := by
  rw [buildEnv_eq] at h
  cases hp : processEnv host schema env with
  | error e => rw [hp, Except_bind_error] at h; simp at h
  | ok c =>
    rw [hp, Except_bind_ok] at h
    cases hc : checkPresence c schema with
    | some key => rw [hc] at h; simp at h
    | none =>
      rw [hc] at h
      injection h with h2
      subst h2
      exact ⟨rfl, hc⟩

theorem buildEnv_ok_of {host : Host} {schema : List (String × JoiSchema)}
    {env : List (String × String)} {cache : List (String × JsValue)}
    (hp : processEnv host schema env = Except.ok cache)
    (hc : checkPresence cache schema = none) :
    buildEnv host schema env = Except.ok cache := by
  rw [buildEnv_eq, hp, Except_bind_ok, hc]

theorem checkPresence_isSome_iff (cache : List (String × JsValue)) :
    ∀ schema : List (String × JoiSchema),
      (checkPresence cache schema).isSome = true ↔
        ∃ k r, (k, r) ∈ schema ∧ hasKey cache k = false ∧
          r.presence = some "required" := by
  intro schema
  induction schema with
  | nil => simp [checkPresence]
  | cons p rest ih =>
    obtain ⟨k0, r0⟩ := p
    cases hk0 : hasKey cache k0 with
    | true =>
      simp only [checkPresence, hk0, if_true]
      rw [ih]
      constructor
      · rintro ⟨k, r, hm, hk, hr⟩
        exact ⟨k, r, List.mem_cons_of_mem _ hm, hk, hr⟩
      · rintro ⟨k, r, hm, hk, hr⟩
        rcases List.mem_cons.mp hm with heq | hm2
        · cases heq
          rw [hk0] at hk
          cases hk
        · exact ⟨k, r, hm2, hk, hr⟩
    | false =>
      by_cases hr0 : r0.presence = some "required"
      · simp only [checkPresence, hk0, Bool.false_eq_true, if_false, hr0, if_true,
          Option.isSome_some, true_iff]
        exact ⟨k0, r0, List.mem_cons_self _ _, hk0, hr0⟩
      · simp only [checkPresence, hk0, Bool.false_eq_true, if_false, hr0]
        rw [ih]
        constructor
        · rintro ⟨k, r, hm, hk, hr⟩
          exact ⟨k, r, List.mem_cons_of_mem _ hm, hk, hr⟩
        · rintro ⟨k, r, hm, hk, hr⟩
          rcases List.mem_cons.mp hm with heq | hm2
          · cases heq
            exact absurd hr hr0
          · exact ⟨k, r, hm2, hk, hr⟩

theorem checkPresence_none_iff (cache : List (String × JsValue))
    (schema : List (String × JoiSchema)) :
    checkPresence cache schema = none ↔
      ∀ k r, (k, r) ∈ schema → hasKey cache k = false →
        r.presence ≠ some "required" := by
  constructor
  · intro h k r hm hk hr
    have hs : (checkPresence cache schema).isSome = true :=
      (checkPresence_isSome_iff cache schema).mpr ⟨k, r, hm, hk, hr⟩
    rw [h] at hs
    cases hs
  · intro h
    cases hc : checkPresence cache schema with
    | none => rfl
    | some key =>
      have hs : (checkPresence cache schema).isSome = true := by rw [hc]; rfl
      obtain ⟨k, r, hm, hk, hr⟩ := (checkPresence_isSome_iff cache schema).mp hs
      exact absurd hr (h k r hm hk)

theorem checkPresence_append (cache : List (String × JsValue))
    (rest : List (String × JoiSchema)) :
    ∀ pre : List (String × JoiSchema),
      (∀ k r, (k, r) ∈ pre → hasKey cache k = true ∨ r.presence ≠ some "required") →
      checkPresence cache (pre ++ rest) = checkPresence cache rest := by
  intro pre
  induction pre with
  | nil => intro _; rfl
  | cons p pre2 ih =>
    obtain ⟨k0, r0⟩ := p
    intro h
    cases hk0 : hasKey cache k0 with
    | true =>
      simp only [List.cons_append, checkPresence, hk0, if_true]
      exact ih (fun k r hm => h k r (List.mem_cons_of_mem _ hm))
    | false =>
      have hr0 : r0.presence ≠ some "required" := by
        rcases h k0 r0 (List.mem_cons_self _ _) with h1 | h2
        · rw [hk0] at h1; cases h1
        · exact h2
      simp only [List.cons_append, checkPresence, hk0, Bool.false_eq_true, if_false, hr0]
      exact ih (fun k r hm => h k r (List.mem_cons_of_mem _ hm))

theorem checkPresence_head_required (cache : List (String × JsValue))
    (key : String) (rule : JoiSchema) (rest : List (String × JoiSchema))
    (hk : hasKey cache key = false) (hr : rule.presence = some "required") :
    checkPresence cache ((key, rule) :: rest) = some key := by
  simp [checkPresence, hk, hr]

theorem foldl_objSet_eq :
    ∀ (cache acc : List (String × JsValue)),
      (∀ k, k ∈ acc.map Prod.fst → k ∉ cache.map Prod.fst) →
      (cache.map Prod.fst).Nodup →
      cache.foldl (fun m kv => objSet m kv.1 kv.2) acc = acc ++ cache := by
  intro cache
  induction cache with
  | nil => intro acc _ _; simp
  | cons p rest ih =>
    obtain ⟨k, v⟩ := p
    intro acc hd hn
    have hk : hasKey acc k = false := by
      rw [hasKey_false_iff]
      intro hmem
      exact hd k hmem (by simp)
    have hstep : objSet acc k v = acc ++ [(k, v)] := by
      simp [objSet, hk]
    rw [List.foldl_cons]
    simp only [hstep]
    rw [ih (acc ++ [(k, v)]) ?_ ?_]
    · simp
    · intro k2 hk2
      rw [List.map_append] at hk2
      rcases List.mem_append.mp hk2 with h1 | h2
      · intro hmem
        exact hd k2 h1 (by simp [hmem])
      · simp at h2
        subst h2
        rw [List.map_cons, List.nodup_cons] at hn
        exact hn.1
    · rw [List.map_cons, List.nodup_cons] at hn
      exact hn.2

theorem allObj_eq_of_nodup (cache : List (String × JsValue))
    (hn : (cache.map Prod.fst).Nodup) : allObj cache = cache := by
  have h := foldl_objSet_eq cache [] (by simp) hn
  simpa [allObj] using h

/-- C7: for every key and every constructed loader, `Env.get` never raises:
when the key is in the snapshot it returns the stored value; when the key
is absent it returns the supplied fallback, or `undefined` (the absent
value) when no fallback is supplied. -/
theorem c7_lookup_total (cache : List (String × JsValue)) (key : String)
    (fallback : JsValue) :
    (∀ v, alistLookup cache key = some v → envGet cache key fallback = v) ∧
    (alistLookup cache key = none → envGet cache key fallback = fallback) ∧
    (alistLookup cache key = none → envGet cache key = JsValue.undefined) := by
  refine ⟨?_, ?_, ?_⟩
  · intro v h
    simp [envGet, h]
  · intro h
    simp [envGet, h]
  · intro h
    simp [envGet, h]

theorem c7_lookup_total_witness :
    envGet [("PATH", JsValue.str "/bin")] "MISSING" (JsValue.str "fb") = JsValue.str "fb" ∧
    envGet [("PATH", JsValue.str "/bin")] "PATH" (JsValue.str "fb") = JsValue.str "/bin" :=
  ⟨(c7_lookup_total [("PATH", JsValue.str "/bin")] "MISSING" (JsValue.str "fb")).2.1 rfl,
   (c7_lookup_total [("PATH", JsValue.str "/bin")] "PATH" (JsValue.str "fb")).1
      (JsValue.str "/bin") rfl⟩

/-- C8: the plain-object export `all(true)` and the ordered-map export
`all(false)` both contain exactly the snapshot's key-value pairs, and
single-key lookup agrees with either view. -/
theorem c8_export_views (cache : List (String × JsValue))
    (hn : (cache.map Prod.fst).Nodup) :
    allObj cache = cache ∧ allMap cache = cache ∧
    (∀ key fallback, envGet (allObj cache) key fallback = envGet cache key fallback) ∧
    (∀ key fallback, envGet (allMap cache) key fallback = envGet cache key fallback) := by
  have h1 := allObj_eq_of_nodup cache hn
  refine ⟨h1, by simp [allMap], ?_, ?_⟩
  · intro key fallback
    rw [h1]
  · intro key fallback
    simp [allMap]

theorem c8_export_views_witness :
    allObj [("A", JsValue.num 1), ("B", JsValue.str "x")] =
      [("A", JsValue.num 1), ("B", JsValue.str "x")] :=
  (c8_export_views [("A", JsValue.num 1), ("B", JsValue.str "x")] (by decide)).1

/-- C4: a raw value whose lowercase form is one of `true`, `yes`, `on`,
`1` casts to boolean `true`; one of `false`, `no`, `off`, `0` casts to
`false`; any other raw value raises `EnvUnparseableBooleanError` naming
the key (the validator hypotheses say the Field Rule's own validation
accepts the produced boolean unchanged, as a plain `Joi.boolean()` rule
does). -/
theorem c4_boolean_tokens (host : Host) (key : String) (validator : JoiSchema)
    (s : String)
    (hvt : validator.validate (JsValue.bool true) = (none, JsValue.bool true))
    (hvf : validator.validate (JsValue.bool false) = (none, JsValue.bool false)) :
    (jsToLower s = "true" ∨ jsToLower s = "yes" ∨ jsToLower s = "on" ∨ jsToLower s = "1" →
      castToBoolean host key (some s) validator = Except.ok (JsValue.bool true)) ∧
    (jsToLower s = "false" ∨ jsToLower s = "no" ∨ jsToLower s = "off" ∨ jsToLower s = "0" →
      castToBoolean host key (some s) validator = Except.ok (JsValue.bool false)) ∧
    (¬(jsToLower s = "true" ∨ jsToLower s = "yes" ∨ jsToLower s = "on" ∨ jsToLower s = "1") →
      ¬(jsToLower s = "false" ∨ jsToLower s = "no" ∨ jsToLower s = "off" ∨ jsToLower s = "0") →
      castToBoolean host key (some s) validator =
        Except.error (EnvError.unparseableBoolean key)) := by
  refine ⟨?_, ?_, ?_⟩
  · intro h
    simp only [castToBoolean]
    rw [if_pos h]
    simp [applyValidator, hvt]
  · intro h
    have hnt : ¬(jsToLower s = "true" ∨ jsToLower s = "yes" ∨ jsToLower s = "on" ∨
        jsToLower s = "1") := by
      intro hc
      rcases h with h | h | h | h <;> rw [h] at hc <;> simp at hc
    simp only [castToBoolean]
    rw [if_neg hnt, if_pos h]
    simp [applyValidator, hvf]
  · intro h1 h2
    simp only [castToBoolean]
    rw [if_neg h1, if_neg h2]

theorem c4_boolean_tokens_witness :
    castToBoolean hostW "FLAG" (some "TRUE") (mkRule (some "boolean") (some "required")) =
      Except.ok (JsValue.bool true) ∧
    castToBoolean hostW "FLAG" (some "nope") (mkRule (some "boolean") (some "required")) =
      Except.error (EnvError.unparseableBoolean "FLAG") :=
  ⟨(c4_boolean_tokens hostW "FLAG" (mkRule (some "boolean") (some "required")) "TRUE"
      rfl rfl).1 (Or.inl (by decide)),
   (c4_boolean_tokens hostW "FLAG" (mkRule (some "boolean") (some "required")) "nope"
      rfl rfl).2.2 (by decide) (by decide)⟩

/-- C1: for a raw value `s` with `Number(s)` not `NaN` and
`Number(s).toString() === s`, the number caster succeeds with value
`Number(s)` (and a key of kind `number` holding such a value ends up in
the snapshot with that numeric value whenever construction succeeds); when
the parse yields `NaN` or the round-trip string differs from the raw
input, the caster raises `EnvUnparseableNumberError` naming the key.  The
hypothesis `hv` says the Field Rule's own validation accepts numbers
unchanged, as a plain `Joi.number()` rule does. -/
theorem c1_number_roundtrip (host : Host) (schema : List (String × JoiSchema))
    (key : String) (validator : JoiSchema)
    (hv : ∀ n, validator.validate (JsValue.num n) = (none, JsValue.num n)) :
    (∀ s n, host.parseNumber s = some n → host.numToString n = s →
      castToNumber host key (some s) validator = Except.ok (JsValue.num n)) ∧
    (∀ s, host.parseNumber s = none →
      castToNumber host key (some s) validator =
        Except.error (EnvError.unparseableNumber key)) ∧
    (∀ s n, host.parseNumber s = some n → host.numToString n ≠ s →
      castToNumber host key (some s) validator =
        Except.error (EnvError.unparseableNumber key)) ∧
    (∀ s n env cache, alistLookup schema key = some validator →
      validator.type = some "number" →
      host.parseNumber s = some n → host.numToString n = s →
      (key, s) ∈ env → buildEnv host schema env = Except.ok cache →
      (key, JsValue.num n) ∈ cache) := by
  have hsucc : ∀ s n, host.parseNumber s = some n → host.numToString n = s →
      castToNumber host key (some s) validator = Except.ok (JsValue.num n) := by
    intro s n hp hrt
    simp only [castToNumber, hp]
    rw [if_neg (by simp [hrt])]
    simp [applyValidator, hv n]
  refine ⟨hsucc, ?_, ?_, ?_⟩
  · intro s hp
    simp [castToNumber, hp]
  · intro s n hp hrt
    simp only [castToNumber, hp]
    rw [if_pos hrt]
  · intro s n env cache hl ht hp hrt hmem hok
    obtain ⟨hpe, _⟩ := buildEnv_ok hok
    obtain ⟨val, hd, hmc⟩ := processEnv_mem hpe hmem
    have hdc : dispatchKey host schema key s = castToNumber host key (some s) validator := by
      simp [dispatchKey, hl, ht]
    rw [hdc, hsucc s n hp hrt] at hd
    injection hd with h2
    subst h2
    exact hmc

theorem c1_number_roundtrip_witness :
    castToNumber hostW "PORT" (some "8080") (mkRule (some "number") (some "required")) =
      Except.ok (JsValue.num 8080) ∧
    castToNumber hostW "PORT" (some "1e3") (mkRule (some "number") (some "required")) =
      Except.error (EnvError.unparseableNumber "PORT") ∧
    castToNumber hostW "PORT" (some "oops") (mkRule (some "number") (some "required")) =
      Except.error (EnvError.unparseableNumber "PORT") :=
  ⟨(c1_number_roundtrip hostW [] "PORT" (mkRule (some "number") (some "required"))
      (fun _ => rfl)).1 "8080" 8080 (by decide) (by decide),
   (c1_number_roundtrip hostW [] "PORT" (mkRule (some "number") (some "required"))
      (fun _ => rfl)).2.2.1 "1e3" 1000 (by decide) (by decide),
   (c1_number_roundtrip hostW [] "PORT" (mkRule (some "number") (some "required"))
      (fun _ => rfl)).2.1 "oops" (by decide)⟩

/-- C6: a key present in the environment with no schema entry is cast as
an optional string through `Joi.string().optional().allow('')`: dispatch
succeeds with the raw string unchanged, and whenever construction
succeeds the snapshot holds that unchanged string for the key. -/
theorem c6_schemaless_string (host : Host) (schema : List (String × JoiSchema))
    (key v : String) (hno : alistLookup schema key = none) :
    dispatchKey host schema key v = Except.ok (JsValue.str v) ∧
    (∀ env cache, (key, v) ∈ env → buildEnv host schema env = Except.ok cache →
      (key, JsValue.str v) ∈ cache) := by
  have h1 : dispatchKey host schema key v = Except.ok (JsValue.str v) := by
    simp [dispatchKey, hno, castToString, applyValidator, defaultStringRule]
  refine ⟨h1, ?_⟩
  intro env cache hmem hok
  obtain ⟨hpe, _⟩ := buildEnv_ok hok
  obtain ⟨val, hd, hmc⟩ := processEnv_mem hpe hmem
  rw [h1] at hd
  injection hd with h2
  subst h2
  exact hmc

theorem c6_schemaless_string_witness :
    ("HOME", JsValue.str "/root") ∈ [("HOME", JsValue.str "/root")] :=
  (c6_schemaless_string hostW [] "HOME" "/root" rfl).2
    [("HOME", "/root")] [("HOME", JsValue.str "/root")] (by simp) rfl

/-- C9: when the cast value fails the Field Rule's additional constraints
(shown here on the comma-split array caster), construction raises
`EnvSchemaValidationError` for that key carrying `fromJoi`'s messages:
exactly one per reported violation, each being the violation message
followed by the value inspected after being picked from the cast (not
raw) value at the violation's dotted sub-path. -/
theorem c9_validation_messages (host : Host) (key : String)
    (validator : JoiSchema) (s : String) (jerr : JoiError) (w : JsValue)
    (hbr : (jsStartsWith s "[" && jsEndsWith s "]") = false)
    (hval : validator.validate (JsValue.arr ((jsSplit s ',').map JsValue.str)) =
      (some jerr, w)) :
    castToArray host key (some s) validator =
      Except.error (EnvError.validationFailed key
        (fromJoiMessages host jerr (JsValue.arr ((jsSplit s ',').map JsValue.str)))) ∧
    (fromJoiMessages host jerr
        (JsValue.arr ((jsSplit s ',').map JsValue.str))).length =
      jerr.details.length ∧
    fromJoiMessages host jerr (JsValue.arr ((jsSplit s ',').map JsValue.str)) =
      jerr.details.map (fun d =>
        d.message ++ ", but got \"" ++
          host.inspect
            (dotPick d.path (JsValue.arr ((jsSplit s ',').map JsValue.str))) ++ "\"") := by
  refine ⟨?_, ?_, rfl⟩
  · simp only [castToArray]
    rw [if_neg (by simp [hbr])]
    simp [applyValidator, hval]
  · simp [fromJoiMessages]

/-- A Joi rule whose validation always reports one violation at the first
array element, used to exercise the validation failure path. -/
def failRule : JoiSchema where
  type := some "array"
  presence := some "required"
  validate := fun _ =>
    (some (JoiError.mk [JoiDetail.mk "items must be at least 20" ["0"]]), JsValue.undefined)

theorem c9_validation_messages_witness :
    castToArray hostW "ITEMS" (some "1,2,3") failRule =
      Except.error (EnvError.validationFailed "ITEMS"
        ["items must be at least 20, but got \"1\""]) := by
  have h := (c9_validation_messages hostW "ITEMS" failRule "1,2,3"
    (JoiError.mk [JoiDetail.mk "items must be at least 20" ["0"]])
    JsValue.undefined (by decide) rfl).1
  rw [h]
  rfl

/-- C10: a schema key absent from the environment whose presence flag was
never specified (or is anything other than `'required'`) raises nothing:
construction succeeds, the key is absent from the snapshot, and the
presence enforcer reports a missing key exactly when some absent schema
key's presence flag equals `'required'`. -/
theorem c10_presence_defaulted (host : Host) (schema : List (String × JoiSchema))
    (env : List (String × String)) (cache : List (String × JsValue))
    (key : String) (rule : JoiSchema)
    (hp : processEnv host schema env = Except.ok cache)
    (_hmem : (key, rule) ∈ schema)
    (habs : key ∉ env.map Prod.fst)
    (_hflag : rule.presence ≠ some "required")
    (hall : ∀ k r, (k, r) ∈ schema → k ∉ env.map Prod.fst →
      r.presence ≠ some "required") :
    buildEnv host schema env = Except.ok cache ∧
    key ∉ cache.map Prod.fst ∧
    ((checkPresence cache schema).isSome = true ↔
      ∃ k r, (k, r) ∈ schema ∧ k ∉ cache.map Prod.fst ∧
        r.presence = some "required") := by
  have hkeys := processEnv_keys hp
  have hnone : checkPresence cache schema = none := by
    rw [checkPresence_none_iff]
    intro k r hm hk
    apply hall k r hm
    rw [← hkeys]
    exact (hasKey_false_iff cache k).mp hk
  refine ⟨buildEnv_ok_of hp hnone, ?_, ?_⟩
  · rw [hkeys]
    exact habs
  · rw [checkPresence_isSome_iff]
    constructor
    · rintro ⟨k, r, hm, hk, hr⟩
      exact ⟨k, r, hm, (hasKey_false_iff cache k).mp hk, hr⟩
    · rintro ⟨k, r, hm, hk, hr⟩
      exact ⟨k, r, hm, (hasKey_false_iff cache k).mpr hk, hr⟩

theorem c10_presence_defaulted_witness :
    buildEnv hostW [("FOO", mkRule (some "string") none)] [] = Except.ok [] :=
  (c10_presence_defaulted hostW [("FOO", mkRule (some "string") none)] [] []
    "FOO" (mkRule (some "string") none) rfl (by simp) (by simp) (by simp [mkRule])
    (by
      intro k r hm _
      simp at hm
      obtain ⟨hk, hr⟩ := hm
      subst hk
      subst hr
      simp [mkRule])).1

/-- C3: a required schema key absent from the environment makes
construction raise `EnvMissingError` naming that key (stated for the
first such key: every earlier schema entry is either populated or not
required), and construction is all-or-nothing: it never returns a cache
when it raises. -/
theorem c3_missing_required (host : Host) (pre post : List (String × JoiSchema))
    (env : List (String × String)) (cache : List (String × JsValue))
    (key : String) (rule : JoiSchema)
    (hp : processEnv host (pre ++ (key, rule) :: post) env = Except.ok cache)
    (hreq : rule.presence = some "required")
    (habs : key ∉ env.map Prod.fst)
    (hpre : ∀ k r, (k, r) ∈ pre → k ∉ env.map Prod.fst →
      r.presence ≠ some "required") :
    buildEnv host (pre ++ (key, rule) :: post) env =
      Except.error (EnvError.missing key) ∧
    ∀ c, buildEnv host (pre ++ (key, rule) :: post) env ≠ Except.ok c := by
  have hkeys := processEnv_keys hp
  have hskip : ∀ k r, (k, r) ∈ pre →
      hasKey cache k = true ∨ r.presence ≠ some "required" := by
    intro k r hm
    by_cases hk : k ∈ env.map Prod.fst
    · left
      rw [hasKey_true_iff, hkeys]
      exact hk
    · right
      exact hpre k r hm hk
  have hck : checkPresence cache (pre ++ (key, rule) :: post) = some key := by
    rw [checkPresence_append cache ((key, rule) :: post) pre hskip]
    apply checkPresence_head_required
    · rw [hasKey_false_iff, hkeys]
      exact habs
    · exact hreq
  have hbe : buildEnv host (pre ++ (key, rule) :: post) env =
      Except.error (EnvError.missing key) := by
    rw [buildEnv_eq, hp, Except_bind_ok, hck]
  refine ⟨hbe, ?_⟩
  intro c hc
  rw [hbe] at hc
  exact Except.noConfusion hc

theorem c3_missing_required_witness :
    buildEnv hostW [("PORT", mkRule (some "number") (some "required"))] [] =
      Except.error (EnvError.missing "PORT") :=
  (c3_missing_required hostW [] [] [] [] "PORT"
    (mkRule (some "number") (some "required")) rfl rfl (by simp)
    (by intro k r hm; simp at hm)).1

/-- C5 is refuted as stated: a schema entry declaring the unsupported kind
tag `banana` for a key that is absent from the environment raises
nothing — construction succeeds, because the constructor only inspects
kind tags for keys present in the environment. -/
theorem c5_unsupported_kind_counterexample :
    buildEnv hostW [("FOO", mkRule (some "banana") (some "optional"))] [] =
      Except.ok [] := rfl

/-- C5 (amended): a Field Rule whose kind tag lies outside the supported
set (or is unspecified) raises `EnvSchemaTypeError` for that key exactly
when a raw value for the key is present in the environment: dispatch on a
present value raises it (so construction of any environment containing
the key never succeeds), while an absent key never reaches the kind
dispatch. -/
theorem c5_unsupported_kind (host : Host) (schema : List (String × JoiSchema))
    (key v : String) (rule : JoiSchema)
    (hr : alistLookup schema key = some rule)
    (ht : ∀ t, rule.type = some t →
      t ≠ "array" ∧ t ≠ "boolean" ∧ t ≠ "date" ∧ t ≠ "number" ∧
        t ≠ "object" ∧ t ≠ "any" ∧ t ≠ "string") :
    dispatchKey host schema key v = Except.error (EnvError.schemaType key rule.type) ∧
    buildEnv host schema [(key, v)] =
      Except.error (EnvError.schemaType key rule.type) ∧
    (∀ env c, (key, v) ∈ env → buildEnv host schema env ≠ Except.ok c) := by
  have h1 : dispatchKey host schema key v =
      Except.error (EnvError.schemaType key rule.type) := by
    cases htag : rule.type with
    | none => simp [dispatchKey, hr, htag]
    | some t =>
      obtain ⟨n1, n2, n3, n4, n5, n6, n7⟩ := ht t htag
      simp [dispatchKey, hr, htag, n1, n2, n3, n4, n5, n6, n7]
  refine ⟨h1, ?_, ?_⟩
  · have h2 : processEnv host schema [(key, v)] =
        Except.error (EnvError.schemaType key rule.type) := by
      rw [processEnv_cons, h1, Except_bind_error]
    rw [buildEnv_eq, h2, Except_bind_error]
  · intro env c hm hok
    obtain ⟨hpe, _⟩ := buildEnv_ok hok
    obtain ⟨val, hd, _⟩ := processEnv_mem hpe hm
    rw [h1] at hd
    exact Except.noConfusion hd

theorem c5_unsupported_kind_witness :
    dispatchKey hostW [("FOO", mkRule (some "banana") (some "required"))] "FOO" "x" =
      Except.error (EnvError.schemaType "FOO" (some "banana")) :=
  (c5_unsupported_kind hostW [("FOO", mkRule (some "banana") (some "required"))]
    "FOO" "x" (mkRule (some "banana") (some "required")) rfl
    (by
      intro t htag
      simp [mkRule] at htag
      subst htag
      decide)).1

/-- C2 is refuted as stated: the claim's example `"[1,2"` does not raise
`EnvUnparseableFromJSONError` — it starts with `[` but does not end with
`]`, so `#castToArray` comma-splits it into the strings `"[1"` and `"2"`
and casting succeeds. -/
theorem c2_array_counterexample :
    castToArray hostW "LIST" (some "[1,2") (mkRule (some "array") (some "required")) =
      Except.ok (JsValue.arr [JsValue.str "[1", JsValue.str "2"]) ∧
    castToArray hostW "LIST" (some "[1,2") (mkRule (some "array") (some "required")) ≠
      Except.error (EnvError.unparseableJSON "LIST") := by
  have h1 : castToArray hostW "LIST" (some "[1,2")
      (mkRule (some "array") (some "required")) =
      Except.ok (JsValue.arr [JsValue.str "[1", JsValue.str "2"]) := rfl
  refine ⟨h1, ?_⟩
  rw [h1]
  intro h
  exact Except.noConfusion h

/-- C2 (amended): a raw value that both starts with `[` and ends with `]`
is parsed as JSON — raising `EnvUnparseableFromJSONError` when the parse
fails, and otherwise validating the parsed value; any other raw value
(including `"[1,2"`, which lacks the closing bracket) is split on commas
into a sequence of strings and validated. -/
theorem c2_array_paths (host : Host) (key : String) (validator : JoiSchema)
    (s : String) :
    ((jsStartsWith s "[" && jsEndsWith s "]") = true → host.jsonParse s = none →
      castToArray host key (some s) validator =
        Except.error (EnvError.unparseableJSON key)) ∧
    (∀ j, (jsStartsWith s "[" && jsEndsWith s "]") = true →
      host.jsonParse s = some j →
      castToArray host key (some s) validator = applyValidator host key j validator) ∧
    ((jsStartsWith s "[" && jsEndsWith s "]") = false →
      castToArray host key (some s) validator =
        applyValidator host key
          (JsValue.arr ((jsSplit s ',').map JsValue.str)) validator) := by
  refine ⟨?_, ?_, ?_⟩
  · intro hb hj
    simp only [castToArray]
    rw [if_pos hb]
    simp [hj]
  · intro j hb hj
    simp only [castToArray]
    rw [if_pos hb]
    simp [hj]
  · intro hb
    simp only [castToArray]
    rw [if_neg (by simp [hb])]

theorem c2_array_paths_witness :
    castToArray hostW "LIST" (some "[1,2,3]") (mkRule (some "array") (some "required")) =
      Except.ok (JsValue.arr [JsValue.num 1, JsValue.num 2, JsValue.num 3]) ∧
    castToArray hostW "LIST" (some "[1,2,]") (mkRule (some "array") (some "required")) =
      Except.error (EnvError.unparseableJSON "LIST") ∧
    castToArray hostW "LIST" (some "1,2") (mkRule (some "array") (some "required")) =
      Except.ok (JsValue.arr [JsValue.str "1", JsValue.str "2"]) := by
  refine ⟨?_, ?_, ?_⟩
  · have h := (c2_array_paths hostW "LIST" (mkRule (some "array") (some "required"))
      "[1,2,3]").2.1 (JsValue.arr [JsValue.num 1, JsValue.num 2, JsValue.num 3])
      (by decide) rfl
    rw [h]
    rfl
  · exact (c2_array_paths hostW "LIST" (mkRule (some "array") (some "required"))
      "[1,2,]").1 (by decide) rfl
  · have h := (c2_array_paths hostW "LIST" (mkRule (some "array") (some "required"))
      "1,2").2.2 (by decide)
    rw [h]
    rfl
